import Mathlib

/-!
# Mapnik font engine: face sets, face manager and glyph bitmap rendering

A shallow embedding of `include/mapnik/font_engine_freetype.hpp`.

* `boost::shared_ptr<font_face>` values are modelled by the `font_face` record itself,
  whose only field is the native `FT_Face` handle: two pointers denote the same
  instance exactly when the handles are equal.  A null `face_ptr` is `none`.
* The FreeType entry points (`FT_Get_Char_Index`, `FT_Set_Pixel_Sizes`) and the font
  engine (`create_face`) are external; they are parameters of the definitions.  Native
  state they mutate is threaded explicitly.
* `unsigned` values (codepoints, glyph indices, colours) are natural numbers: the code
  only copies them and tests them against 0.
* `int` values (pixel coordinates, bitmap extents, loop counters) are integers in the
  32-bit range; every `int` addition, increment and multiplication of the source goes
  through `wrap_int`, the two's complement result modulo 2^32.
* Dereferencing the begin iterator of an empty vector is undefined behaviour; it is the
  result `none`.
-/

set_option autoImplicit false

namespace mapnik

/-! ## Data model -/

/-- The class `font_face`: owner of one native face handle `face_`. -/
structure font_face (FT_Face : Type) where
  face_ : FT_Face
deriving DecidableEq, Repr

/-- The typedef `face_ptr` (a non-null shared pointer to a `font_face`). -/
abbrev face_ptr (FT_Face : Type) : Type := font_face FT_Face

/-- The class `font_glyph`: a face reference and a glyph index. -/
structure font_glyph (FT_Face : Type) where
  face_ : face_ptr FT_Face
  index_ : Nat
deriving DecidableEq, Repr

/-- The class `font_face_set::dimension_t`, over a number type `R` standing for `double`. -/
structure dimension_t (R : Type) where
  width : R
  height : R
  linespacing : R
  ymin : R
deriving DecidableEq, Repr

/-- The class `font_face_set`: the fallback chain `faces_` (a `std::vector<face_ptr>`) and
the `dimension_cache_` (a `std::map<unsigned, dimension_t>`, kept as an association list). -/
structure font_face_set (FT_Face R : Type) where
  faces_ : List (face_ptr FT_Face)
  dimension_cache_ : List (Nat × dimension_t R)
deriving DecidableEq, Repr

/-- The class `face_manager`: the face cache `faces_` (a `std::map<std::string, face_ptr>`,
kept as an association list with at most one entry per key). The engine reference is
passed to the operations; the stroker takes no part in face lookup. -/
structure face_manager (FT_Face : Type) where
  faces_ : List (String × face_ptr FT_Face)
deriving DecidableEq, Repr

/-- Modelled from the spec: the font-set configuration type `font_set` (declared in
`font_set.hpp`), "an ordered sequence of face names (strings) with a size (count)". -/
structure font_set where
  face_names_ : List String
deriving DecidableEq, Repr

/-- The FreeType record `FT_Bitmap` as the code reads it: `rows`, `width` and the coverage
bytes; `buffer k` is the byte at offset `k` from the `buffer` pointer. -/
structure FT_Bitmap where
  rows : Int
  width : Int
  buffer : Int → Nat

/-- The method `font_face::get_char`. -/
def font_face.get_char {FT_Face : Type} (FT_Get_Char_Index : FT_Face → Nat → Nat)
    (self : font_face FT_Face) (c : Nat) : Nat :=
  FT_Get_Char_Index self.face_ c

/-- The method `font_face::set_pixel_sizes`: true iff `FT_Set_Pixel_Sizes(face_, 0, size)`
reports no error. `Lib` is the native library state the call may change. -/
def font_face.set_pixel_sizes {FT_Face Lib : Type}
    (FT_Set_Pixel_Sizes : Lib → FT_Face → Nat → Nat → Int × Lib)
    (self : font_face FT_Face) (lib : Lib) (size : Nat) : Bool × Lib :=
  let r := FT_Set_Pixel_Sizes lib self.face_ 0 size
  if r.1 = 0 then (true, r.2) else (false, r.2)

/-! ## font_face_set -/

/-- The constructor `font_face_set(void)`. -/
def font_face_set.new {FT_Face R : Type} : font_face_set FT_Face R :=
  { faces_ := [], dimension_cache_ := [] }

/-- The method `font_face_set::add`: `push_back` then `dimension_cache_.clear()`. -/
def font_face_set.add {FT_Face R : Type} (self : font_face_set FT_Face R)
    (face : face_ptr FT_Face) : font_face_set FT_Face R :=
  { faces_ := self.faces_ ++ [face], dimension_cache_ := [] }

/-- The `for` loop of `font_face_set::get_glyph` from iterator position `face` on:
`some` is the early `return`, `none` means the loop ran to `faces_.end()`. -/
def font_face_set.get_glyph_loop {FT_Face : Type} (FT_Get_Char_Index : FT_Face → Nat → Nat)
    (c : Nat) : List (face_ptr FT_Face) → Option (font_glyph FT_Face)
  | [] => none
  | face :: rest =>
    let g := face.get_char FT_Get_Char_Index c
    if g ≠ 0 then some { face_ := face, index_ := g }
    else font_face_set.get_glyph_loop FT_Get_Char_Index c rest

/-- The method `font_face_set::get_glyph`. After the loop it builds a glyph from
`*faces_.begin()` and index 0; on an empty vector that dereference is undefined
behaviour, which is the result `none`. -/
def font_face_set.get_glyph {FT_Face R : Type} (FT_Get_Char_Index : FT_Face → Nat → Nat)
    (self : font_face_set FT_Face R) (c : Nat) : Option (font_glyph FT_Face) :=
  match font_face_set.get_glyph_loop FT_Get_Char_Index c self.faces_ with
  | some glyph => some glyph
  | none =>
    match self.faces_.head? with
    | some first => some { face_ := first, index_ := 0 }
    | none => none

/-- The `for` loop of `font_face_set::set_pixel_sizes` from iterator position `face` on;
the boolean each face returns is discarded, as in the source. -/
def font_face_set.set_pixel_sizes_loop {FT_Face Lib : Type}
    (FT_Set_Pixel_Sizes : Lib → FT_Face → Nat → Nat → Int × Lib) (size : Nat) :
    List (face_ptr FT_Face) → Lib → Lib
  | [], lib => lib
  | face :: rest, lib =>
    font_face_set.set_pixel_sizes_loop FT_Set_Pixel_Sizes size rest
      (face.set_pixel_sizes FT_Set_Pixel_Sizes lib size).2

/-- The method `font_face_set::set_pixel_sizes`: the face set after the call and the
native library state after the call. -/
def font_face_set.set_pixel_sizes {FT_Face R Lib : Type}
    (FT_Set_Pixel_Sizes : Lib → FT_Face → Nat → Nat → Int × Lib)
    (self : font_face_set FT_Face R) (lib : Lib) (size : Nat) :
    font_face_set FT_Face R × Lib :=
  (self, font_face_set.set_pixel_sizes_loop FT_Set_Pixel_Sizes size self.faces_ lib)

/-! ## face_manager -/

/-- The call `faces_.find(name)` on the face cache: the mapped face, `none` for `end()`. -/
def faces_find {FT_Face : Type} (faces : List (String × face_ptr FT_Face)) (name : String) :
    Option (face_ptr FT_Face) :=
  faces.lookup name

/-- The call `faces_.insert(make_pair(name, face))`: `std::map::insert` adds the pair only
when the key is not present yet. -/
def faces_insert {FT_Face : Type} (faces : List (String × face_ptr FT_Face)) (name : String)
    (face : face_ptr FT_Face) : List (String × face_ptr FT_Face) :=
  match faces.lookup name with
  | some _ => faces
  | none => faces ++ [(name, face)]

/-- The constructor of `face_manager`: an empty face cache. -/
def face_manager.new {FT_Face : Type} : face_manager FT_Face :=
  { faces_ := [] }

/-- The method `face_manager::get_face`. The engine's `create_face` is a parameter; it
gets the engine state and the name and gives a possibly null face and the next engine
state. The result is the returned pointer, the manager after the call and the engine
after the call. -/
def face_manager.get_face {FT_Face Engine : Type}
    (create_face : Engine → String → Option (face_ptr FT_Face) × Engine)
    (self : face_manager FT_Face) (engine_ : Engine) (name : String) :
    Option (face_ptr FT_Face) × face_manager FT_Face × Engine :=
  match faces_find self.faces_ name with
  | some cached => (some cached, self, engine_)
  | none =>
    let r := create_face engine_ name
    match r.1 with
    | some face => (some face, { faces_ := faces_insert self.faces_ name face }, r.2)
    | none => (none, self, r.2)

/-- The overload `face_manager::get_face_set(std::string const&)`. -/
def face_manager.get_face_set_name {FT_Face R Engine : Type}
    (create_face : Engine → String → Option (face_ptr FT_Face) × Engine)
    (self : face_manager FT_Face) (engine_ : Engine) (name : String) :
    font_face_set FT_Face R × face_manager FT_Face × Engine :=
  let face_set : font_face_set FT_Face R := font_face_set.new
  let r := self.get_face create_face engine_ name
  match r.1 with
  | some face => (face_set.add face, r.2)
  | none => (face_set, r.2)

/-- The `for` loop of `face_manager::get_face_set(font_set const&)` from iterator
position `name` on, with the face set built so far. -/
def face_manager.get_face_set_loop {FT_Face R Engine : Type}
    (create_face : Engine → String → Option (face_ptr FT_Face) × Engine) :
    List String → font_face_set FT_Face R → face_manager FT_Face → Engine →
    font_face_set FT_Face R × face_manager FT_Face × Engine
  | [], face_set, self, engine_ => (face_set, self, engine_)
  | name :: rest, face_set, self, engine_ =>
    let r := self.get_face create_face engine_ name
    match r.1 with
    | some face =>
      face_manager.get_face_set_loop create_face rest (face_set.add face) r.2.1 r.2.2
    | none => face_manager.get_face_set_loop create_face rest face_set r.2.1 r.2.2

/-- The overload `face_manager::get_face_set(font_set const&)`. -/
def face_manager.get_face_set {FT_Face R Engine : Type}
    (create_face : Engine → String → Option (face_ptr FT_Face) × Engine)
    (self : face_manager FT_Face) (engine_ : Engine) (fset : font_set) :
    font_face_set FT_Face R × face_manager FT_Face × Engine :=
  face_manager.get_face_set_loop create_face fset.face_names_ font_face_set.new self engine_

/-- A sequence of `get_face` calls on one manager, one per name, in order: the pointers
returned, then the manager and the engine after the last call. -/
def face_manager.get_face_calls {FT_Face Engine : Type}
    (create_face : Engine → String → Option (face_ptr FT_Face) × Engine) :
    List String → face_manager FT_Face → Engine →
    List (Option (face_ptr FT_Face)) × face_manager FT_Face × Engine
  | [], self, engine_ => ([], self, engine_)
  | name :: rest, self, engine_ =>
    let r := self.get_face create_face engine_ name
    let rs := face_manager.get_face_calls create_face rest r.2.1 r.2.2
    (r.1 :: rs.1, rs.2)

/-- An engine instrumented with the list of names `create_face` has been invoked with,
oldest first; the wrapped engine behaves as before. -/
def logged_create_face {FT_Face Engine : Type}
    (create_face : Engine → String → Option (face_ptr FT_Face) × Engine) :
    Engine × List String → String → Option (face_ptr FT_Face) × (Engine × List String) :=
  fun st name =>
    let r := create_face st.1 name
    (r.1, (r.2, st.2 ++ [name]))

/-! ## text_renderer -/

/-- The value a 32-bit two's complement `int` holds for the arithmetic result `z`:
`z` itself when it is representable, `z` reduced modulo 2^32 into the `int` range
otherwise. -/
def wrap_int (z : Int) : Int :=
  (z + 2147483648) % 4294967296 - 2147483648

/-- The integer `z` is representable as a 32-bit `int`. -/
abbrev is_int (z : Int) : Prop :=
  -2147483648 ≤ z ∧ z ≤ 2147483647

/-- The inner loop of `text_renderer::render_bitmap_id` for the column `(i, p)`. -/
def text_renderer.render_bitmap_id_inner {T : Type} (setPixel : T → Int → Int → Int → T)
    (bitmap : FT_Bitmap) (feature_id : Int) (y_max i p : Int) :
    Nat → Int → Int → T → T
  | 0, _, _, pixmap_ => pixmap_
  | n + 1, j, q, pixmap_ =>
    if j < y_max then
      let gray := bitmap.buffer (wrap_int (wrap_int (q * bitmap.width) + p))
      text_renderer.render_bitmap_id_inner setPixel bitmap feature_id y_max i p n
        (wrap_int (j + 1)) (wrap_int (q + 1))
        (if gray ≠ 0 then setPixel pixmap_ i j feature_id else pixmap_)
    else pixmap_

/-- The outer loop of `text_renderer::render_bitmap_id`. -/
def text_renderer.render_bitmap_id_outer {T : Type} (setPixel : T → Int → Int → Int → T)
    (bitmap : FT_Bitmap) (feature_id : Int) (x_max y y_max : Int) :
    Nat → Int → Int → T → T
  | 0, _, _, pixmap_ => pixmap_
  | n + 1, i, p, pixmap_ =>
    if i < x_max then
      text_renderer.render_bitmap_id_outer setPixel bitmap feature_id x_max y y_max n
        (wrap_int (i + 1)) (wrap_int (p + 1))
        (text_renderer.render_bitmap_id_inner setPixel bitmap feature_id y_max i p
          (y_max - y).toNat y 0 pixmap_)
    else pixmap_

/-- The method `text_renderer::render_bitmap_id` over a pixel sink of type `T` with the
operation `setPixel`; the result is the sink after the call. -/
def text_renderer.render_bitmap_id {T : Type} (setPixel : T → Int → Int → Int → T)
    (bitmap : FT_Bitmap) (feature_id : Int) (x y : Int) (pixmap_ : T) : T :=
  let x_max := wrap_int (x + bitmap.width)
  let y_max := wrap_int (y + bitmap.rows)
  text_renderer.render_bitmap_id_outer setPixel bitmap feature_id x_max y y_max
    (x_max - x).toNat x 0 pixmap_

/-- The preconditions under which the `int` arithmetic of `render_bitmap` and
`render_bitmap_id` is exact for a bitmap drawn at `(x, y)`: the origin, the extents and
the sums `x + width`, `y + rows` are representable as `int`, and so is every offset
`q*width + p` of the rectangle (`width * rows` does not exceed the largest `int`). -/
abbrev in_int_range (bitmap : FT_Bitmap) (x y : Int) : Prop :=
  is_int x ∧ is_int y ∧ is_int bitmap.width ∧ is_int bitmap.rows ∧
    is_int (x + bitmap.width) ∧ is_int (y + bitmap.rows) ∧
    (0 < bitmap.width → 0 < bitmap.rows → bitmap.width * bitmap.rows ≤ 2147483647)

/-- Modelled from the spec: the id target of the pixel sink (the template parameter of
`text_renderer`, declared outside this header): one identifier per pixel. -/
abbrev id_buffer : Type := Int → Int → Int

/-- Modelled from the spec: the sink operation `set_pixel_id(x, y, feature_id)`, "write an
opaque identifier, last-write-wins for overlapping glyphs". -/
def id_buffer.setPixel (pixmap_ : id_buffer) (x y : Int) (feature_id : Int) : id_buffer :=
  fun a b => if a = x ∧ b = y then feature_id else pixmap_ a b

/-- The bitmap pixel `(p, q)` lies in the bitmap rectangle and has nonzero coverage. -/
def covered (bitmap : FT_Bitmap) (p q : Int) : Prop :=
  0 ≤ p ∧ p < bitmap.width ∧ 0 ≤ q ∧ q < bitmap.rows ∧
    bitmap.buffer (q * bitmap.width + p) ≠ 0

/-- The covered pixels of column `p` among the `n` rows from `q` on, in increasing row. -/
def column_cells (bitmap : FT_Bitmap) (p : Int) : Nat → Int → List (Int × Int)
  | 0, _ => []
  | n + 1, q =>
    (if bitmap.buffer (q * bitmap.width + p) ≠ 0 then [(p, q)] else []) ++
      column_cells bitmap p n (q + 1)

/-- The covered pixels of the `n` columns from `p` on, each over rows `0 .. rows - 1`,
column after column. -/
def bitmap_cells (bitmap : FT_Bitmap) : Nat → Int → List (Int × Int)
  | 0, _ => []
  | n + 1, p =>
    column_cells bitmap p bitmap.rows.toNat 0 ++ bitmap_cells bitmap n (p + 1)

/-- The covered pixels `(p, q)` of a bitmap, column after column. -/
def covered_cells (bitmap : FT_Bitmap) : List (Int × Int) :=
  bitmap_cells bitmap bitmap.width.toNat 0

/-- A sample bitmap of width 2 and 2 rows with coverage bytes 0, 200 / 0, 0: only the
pixel `(p, q) = (1, 0)` is covered. -/
def sample_bitmap : FT_Bitmap :=
  { rows := 2, width := 2, buffer := fun k => if k = 1 then 200 else 0 }

/-- A sample bitmap of width 1 and 1 row whose only pixel has coverage 255. -/
def dot_bitmap : FT_Bitmap :=
  { rows := 1, width := 1, buffer := fun _ => 255 }

/-- A sample character map over face handles 1 and 2: face 1 maps only U+0041,
face 2 maps U+0041 and U+4E2D. -/
def sample_char_index (face c : Nat) : Nat :=
  if face = 1 then (if c = 65 then 36 else 0)
  else if face = 2 then (if c = 65 then 40 else if c = 20013 then 1234 else 0)
  else 0

/-- A sample face set: faces 1 and 2 in this order, with one cached dimension. -/
def sample_face_set : font_face_set Nat Int :=
  { faces_ := [{ face_ := 1 }, { face_ := 2 }],
    dimension_cache_ := [(65, { width := 7, height := 12, linespacing := 14, ymin := -3 })] }

/-- A sample face set holding the single face 1. -/
def single_face_set : font_face_set Nat Int :=
  { faces_ := [{ face_ := 1 }], dimension_cache_ := [] }

/-- A sample engine that knows no font: `create_face` gives a null pointer for every name. -/
def no_font_engine (engine_ : Unit) (_name : String) : Option (face_ptr Nat) × Unit :=
  (none, engine_)

/-- A sample engine with a fixed registry of two names; its state is the handle the
next created face gets, so every `create_face` gives a new instance. -/
def sample_engine (next : Nat) (name : String) : Option (face_ptr Nat) × Nat :=
  if name = "DejaVu Sans Book" ∨ name = "Unifont Medium" then
    (some { face_ := next }, next + 1)
  else (none, next)

/-- A sample engine whose state holds the registered names and the next handle:
`create_face` succeeds exactly for the names registered at the time of the call. -/
def registry_engine (st : List String × Nat) (name : String) :
    Option (face_ptr Nat) × (List String × Nat) :=
  if name ∈ st.1 then (some { face_ := st.2 }, (st.1, st.2 + 1)) else (none, st)

/-- A native library state that records the `FT_Set_Pixel_Sizes` calls, oldest first, and
reports success. -/
def record_pixel_sizes {FT_Face : Type} (calls : List (FT_Face × Nat × Nat)) (face : FT_Face)
    (width height : Nat) : Int × List (FT_Face × Nat × Nat) :=
  (0, calls ++ [(face, width, height)])

/-! ## font_face_set: glyph lookup -/

theorem get_glyph_loop_first {FT_Face : Type} (FT_Get_Char_Index : FT_Face → Nat → Nat)
    (c : Nat) (faces : List (face_ptr FT_Face))
    (h : ∃ face ∈ faces, face.get_char FT_Get_Char_Index c ≠ 0) :
    ∃ (i : Nat) (hi : i < faces.length),
      faces[i].get_char FT_Get_Char_Index c ≠ 0 ∧
      (∀ (j : Nat) (hj : j < faces.length), j < i →
        faces[j].get_char FT_Get_Char_Index c = 0) ∧
      font_face_set.get_glyph_loop FT_Get_Char_Index c faces =
        some { face_ := faces[i], index_ := faces[i].get_char FT_Get_Char_Index c } := by
  induction faces with
  | nil => obtain ⟨face, hmem, _⟩ := h; simp at hmem
  | cons a rest ih =>
    by_cases ha : a.get_char FT_Get_Char_Index c ≠ 0
    · refine ⟨0, by simp, by simpa using ha, ?_, ?_⟩
      · intro j _ hj; omega
      · simp [font_face_set.get_glyph_loop, ha]
    · have hrest : ∃ face ∈ rest, face.get_char FT_Get_Char_Index c ≠ 0 := by
        obtain ⟨face, hmem, hne⟩ := h
        rcases List.mem_cons.mp hmem with rfl | hmem
        · exact absurd hne ha
        · exact ⟨face, hmem, hne⟩
      obtain ⟨i, hi, hne, hmin, hloop⟩ := ih hrest
      refine ⟨i + 1, by simpa using hi, by simpa using hne, ?_, ?_⟩
      · intro j hj hlt
        cases j with
        | zero => simpa using ha
        | succ k =>
          have hk : k < rest.length := by simpa using hj
          simpa using hmin k hk (by omega)
      · simp only [font_face_set.get_glyph_loop, ha, if_false]
        simpa using hloop

theorem get_glyph_loop_none {FT_Face : Type} (FT_Get_Char_Index : FT_Face → Nat → Nat)
    (c : Nat) (faces : List (face_ptr FT_Face))
    (h : ∀ face ∈ faces, face.get_char FT_Get_Char_Index c = 0) :
    font_face_set.get_glyph_loop FT_Get_Char_Index c faces = none := by
  induction faces with
  | nil => rfl
  | cons a rest ih =>
    have ha : a.get_char FT_Get_Char_Index c = 0 := h a (List.mem_cons_self _ _)
    simp only [font_face_set.get_glyph_loop, ha, ne_eq, not_true_eq_false, if_false]
    exact ih (fun face hmem => h face (List.mem_cons_of_mem _ hmem))

/-- C1. First match wins: when some face of the chain maps `c` to a nonzero glyph index,
`get_glyph` returns the glyph bound to the face at the smallest chain position `i` whose
`get_char c` is nonzero, carrying that face's index for `c`. -/
theorem get_glyph_first_match {FT_Face R : Type} (FT_Get_Char_Index : FT_Face → Nat → Nat)
    (s : font_face_set FT_Face R) (c : Nat)
    (h : ∃ face ∈ s.faces_, face.get_char FT_Get_Char_Index c ≠ 0) :
    ∃ (i : Nat) (hi : i < s.faces_.length),
      s.faces_[i].get_char FT_Get_Char_Index c ≠ 0 ∧
      (∀ (j : Nat) (hj : j < s.faces_.length), j < i →
        s.faces_[j].get_char FT_Get_Char_Index c = 0) ∧
      s.get_glyph FT_Get_Char_Index c =
        some { face_ := s.faces_[i], index_ := s.faces_[i].get_char FT_Get_Char_Index c } := by
  obtain ⟨i, hi, hne, hmin, hloop⟩ := get_glyph_loop_first FT_Get_Char_Index c s.faces_ h
  exact ⟨i, hi, hne, hmin, by simp [font_face_set.get_glyph, hloop]⟩

/-- C2. Sentinel fallback: in a chain of at least one face where every face maps `c` to
glyph index 0, `get_glyph` returns the glyph with index 0 bound to the face at chain
position 0. -/
theorem get_glyph_sentinel {FT_Face R : Type} (FT_Get_Char_Index : FT_Face → Nat → Nat)
    (s : font_face_set FT_Face R) (c : Nat) (hN : 1 ≤ s.faces_.length)
    (h : ∀ face ∈ s.faces_, face.get_char FT_Get_Char_Index c = 0) :
    s.get_glyph FT_Get_Char_Index c = some { face_ := s.faces_[0], index_ := 0 } := by
  have hloop := get_glyph_loop_none FT_Get_Char_Index c s.faces_ h
  obtain ⟨faces, cache⟩ := s
  cases faces with
  | nil => simp at hN
  | cons a rest =>
    simp only at hloop
    simp [font_face_set.get_glyph, hloop]

/-- Witness of C1 on the chain of faces 1 and 2 and U+4E2D, which only face 2 maps. -/
theorem get_glyph_first_match_witness :
    (∃ face ∈ sample_face_set.faces_, face.get_char sample_char_index 20013 ≠ 0) ∧
    ∃ (i : Nat) (hi : i < sample_face_set.faces_.length),
      sample_face_set.faces_[i].get_char sample_char_index 20013 ≠ 0 ∧
      (∀ (j : Nat) (hj : j < sample_face_set.faces_.length), j < i →
        sample_face_set.faces_[j].get_char sample_char_index 20013 = 0) ∧
      sample_face_set.get_glyph sample_char_index 20013 =
        some { face_ := sample_face_set.faces_[i],
               index_ := sample_face_set.faces_[i].get_char sample_char_index 20013 } :=
  ⟨⟨{ face_ := 2 }, by decide, by decide⟩,
   get_glyph_first_match sample_char_index sample_face_set 20013
     ⟨{ face_ := 2 }, by decide, by decide⟩⟩

/-- Witness of C2 on the chain of the single face 1 and U+4E2D, which face 1 does not
map (N = 1). -/
theorem get_glyph_sentinel_witness :
    1 ≤ single_face_set.faces_.length ∧
    (∀ face ∈ single_face_set.faces_, face.get_char sample_char_index 20013 = 0) ∧
    single_face_set.get_glyph sample_char_index 20013 =
      some { face_ := single_face_set.faces_[0], index_ := 0 } :=
  ⟨by decide, by decide,
   get_glyph_sentinel sample_char_index single_face_set 20013 (by decide) (by decide)⟩

/-- A face set with at least one face always yields a glyph, bound to a face of the
set: the undefined dereference is confined to the empty chain. -/
theorem get_glyph_nonempty {FT_Face R : Type} (FT_Get_Char_Index : FT_Face → Nat → Nat)
    (s : font_face_set FT_Face R) (c : Nat) (hN : s.faces_ ≠ []) :
    ∃ glyph : font_glyph FT_Face,
      s.get_glyph FT_Get_Char_Index c = some glyph ∧ glyph.face_ ∈ s.faces_ := by
  by_cases h : ∃ face ∈ s.faces_, face.get_char FT_Get_Char_Index c ≠ 0
  · obtain ⟨i, hi, _, _, hloop⟩ := get_glyph_loop_first FT_Get_Char_Index c s.faces_ h
    exact ⟨{ face_ := s.faces_[i], index_ := s.faces_[i].get_char FT_Get_Char_Index c },
      by simp [font_face_set.get_glyph, hloop], List.getElem_mem _⟩
  · have hall : ∀ face ∈ s.faces_, face.get_char FT_Get_Char_Index c = 0 := by
      intro face hmem
      by_contra hne
      exact h ⟨face, hmem, hne⟩
    have hloop := get_glyph_loop_none FT_Get_Char_Index c s.faces_ hall
    obtain ⟨faces, cache⟩ := s
    cases faces with
    | nil => exact absurd rfl hN
    | cons a rest =>
      simp only at hloop
      exact ⟨{ face_ := a, index_ := 0 }, by simp [font_face_set.get_glyph, hloop],
        List.mem_cons_self _ _⟩

/-- C3. On the face set that `get_face_set(name)` returns when the engine cannot create
the face, the chain is empty and `get_glyph` dereferences `faces_.begin()` of an empty
vector for every codepoint: no glyph is produced. -/
theorem get_glyph_empty_face_set :
    ((face_manager.get_face_set_name no_font_engine face_manager.new () "Unknown Regular" :
        font_face_set Nat Int × face_manager Nat × Unit).1.faces_ = []) ∧
    ∀ c : Nat,
      font_face_set.get_glyph sample_char_index
        (face_manager.get_face_set_name no_font_engine face_manager.new () "Unknown Regular" :
          font_face_set Nat Int × face_manager Nat × Unit).1 c = none := by
  refine ⟨rfl, fun c => ?_⟩
  rfl

/-! ## font_face_set: add and set_pixel_sizes -/

theorem get_glyph_loop_append {FT_Face : Type} (FT_Get_Char_Index : FT_Face → Nat → Nat)
    (c : Nat) (faces more : List (face_ptr FT_Face))
    (h : ∃ face ∈ faces, face.get_char FT_Get_Char_Index c ≠ 0) :
    font_face_set.get_glyph_loop FT_Get_Char_Index c (faces ++ more) =
      font_face_set.get_glyph_loop FT_Get_Char_Index c faces := by
  induction faces with
  | nil => obtain ⟨face, hmem, _⟩ := h; simp at hmem
  | cons a rest ih =>
    by_cases ha : a.get_char FT_Get_Char_Index c ≠ 0
    · simp [font_face_set.get_glyph_loop, ha]
    · have hrest : ∃ face ∈ rest, face.get_char FT_Get_Char_Index c ≠ 0 := by
        obtain ⟨face, hmem, hne⟩ := h
        rcases List.mem_cons.mp hmem with rfl | hmem
        · exact absurd hne ha
        · exact ⟨face, hmem, hne⟩
      simp only [List.cons_append, font_face_set.get_glyph_loop, ha, if_false]
      exact ih hrest

theorem set_pixel_sizes_loop_eq_foldl {FT_Face Lib : Type}
    (FT_Set_Pixel_Sizes : Lib → FT_Face → Nat → Nat → Int × Lib) (size : Nat)
    (faces : List (face_ptr FT_Face)) (lib : Lib) :
    font_face_set.set_pixel_sizes_loop FT_Set_Pixel_Sizes size faces lib =
      faces.foldl (fun l face => (FT_Set_Pixel_Sizes l face.face_ 0 size).2) lib := by
  induction faces generalizing lib with
  | nil => rfl
  | cons a rest ih =>
    simp only [font_face_set.set_pixel_sizes_loop, List.foldl_cons]
    rw [ih]
    congr 1
    simp only [font_face.set_pixel_sizes]
    split <;> rfl

theorem foldl_record_pixel_sizes {FT_Face : Type} (size : Nat)
    (faces : List (face_ptr FT_Face)) (calls : List (FT_Face × Nat × Nat)) :
    faces.foldl (fun l face => (record_pixel_sizes l face.face_ 0 size).2) calls =
      calls ++ faces.map (fun face => (face.face_, 0, size)) := by
  induction faces generalizing calls with
  | nil => simp
  | cons a rest ih =>
    rw [List.foldl_cons, ih]
    simp [record_pixel_sizes]

/-- C7. `add` appends and invalidates: the face list becomes the previous list with the
face as last element (one longer, earlier positions unchanged), the dimension cache
becomes empty, and `get_glyph` is unchanged for every codepoint some earlier face maps. -/
theorem add_appends_and_invalidates {FT_Face R : Type} (s : font_face_set FT_Face R)
    (f : face_ptr FT_Face) :
    (s.add f).faces_ = s.faces_ ++ [f] ∧
    (s.add f).faces_.length = s.faces_.length + 1 ∧
    (s.add f).faces_.getLast? = some f ∧
    (∀ (i : Nat) (hi : i < s.faces_.length), (s.add f).faces_[i]? = some s.faces_[i]) ∧
    (s.add f).dimension_cache_ = [] ∧
    (∀ (FT_Get_Char_Index : FT_Face → Nat → Nat) (c : Nat),
      (∃ face ∈ s.faces_, face.get_char FT_Get_Char_Index c ≠ 0) →
      (s.add f).get_glyph FT_Get_Char_Index c = s.get_glyph FT_Get_Char_Index c) := by
  refine ⟨rfl, by simp [font_face_set.add], by simp [font_face_set.add], ?_, rfl, ?_⟩
  · intro i hi
    simp [font_face_set.add, List.getElem?_append_left hi]
  · intro gci c h
    obtain ⟨i, hi, hne, _, hloop⟩ := get_glyph_loop_first gci c s.faces_ h
    have happ := get_glyph_loop_append gci c s.faces_ [f] h
    simp [font_face_set.get_glyph, font_face_set.add, happ, hloop]

/-- Witness of C7 on the sample face set, which holds a cached dimension, and a third
face: U+0041 resolves to face 1 before and after. -/
theorem add_appends_and_invalidates_witness :
    sample_face_set.dimension_cache_ ≠ [] ∧
    (sample_face_set.add { face_ := 3 }).faces_ =
      [{ face_ := 1 }, { face_ := 2 }, { face_ := 3 }] ∧
    (sample_face_set.add { face_ := 3 }).dimension_cache_ = [] ∧
    (sample_face_set.add { face_ := 3 }).get_glyph sample_char_index 65 =
      sample_face_set.get_glyph sample_char_index 65 :=
  ⟨by decide,
   (add_appends_and_invalidates sample_face_set { face_ := 3 }).1,
   (add_appends_and_invalidates sample_face_set { face_ := 3 }).2.2.2.2.1,
   (add_appends_and_invalidates sample_face_set { face_ := 3 }).2.2.2.2.2
     sample_char_index 65 ⟨{ face_ := 1 }, by decide, by decide⟩⟩

/-- C8. `set_pixel_sizes` does not invalidate the dimension cache: the chain and the
cache after the call equal those before (so every cached entry is still there), and the
native state is the one reached by `FT_Set_Pixel_Sizes(face, 0, size)` on each face of
the chain in order; with a recording library the calls issued are exactly one
`(face, 0, size)` per chain face. Of the two mutators of the class only `add` empties
the cache. -/
theorem set_pixel_sizes_keeps_cache {FT_Face R Lib : Type}
    (FT_Set_Pixel_Sizes : Lib → FT_Face → Nat → Nat → Int × Lib)
    (s : font_face_set FT_Face R) (lib : Lib) (size : Nat) :
    (s.set_pixel_sizes FT_Set_Pixel_Sizes lib size).1.faces_ = s.faces_ ∧
    (s.set_pixel_sizes FT_Set_Pixel_Sizes lib size).1.dimension_cache_ = s.dimension_cache_ ∧
    (∀ (c : Nat) (d : dimension_t R), (c, d) ∈ s.dimension_cache_ →
      (c, d) ∈ (s.set_pixel_sizes FT_Set_Pixel_Sizes lib size).1.dimension_cache_) ∧
    (s.set_pixel_sizes FT_Set_Pixel_Sizes lib size).2 =
      s.faces_.foldl (fun l face => (FT_Set_Pixel_Sizes l face.face_ 0 size).2) lib ∧
    (∀ calls : List (FT_Face × Nat × Nat),
      (s.set_pixel_sizes record_pixel_sizes calls size).2 =
        calls ++ s.faces_.map (fun face => (face.face_, 0, size))) ∧
    (∀ f : face_ptr FT_Face, (s.add f).dimension_cache_ = []) := by
  refine ⟨rfl, rfl, fun _ _ h => h, ?_, fun calls => ?_, fun _ => rfl⟩
  · exact set_pixel_sizes_loop_eq_foldl FT_Set_Pixel_Sizes size s.faces_ lib
  · simp only [font_face_set.set_pixel_sizes]
    rw [set_pixel_sizes_loop_eq_foldl, foldl_record_pixel_sizes]

/-- Witness of C8 on the sample face set: the dimension cached for U+0041 is still
there after the size changes to 24, and both faces got that size. -/
theorem set_pixel_sizes_keeps_cache_witness :
    (65, ({ width := 7, height := 12, linespacing := 14, ymin := -3 } : dimension_t Int)) ∈
      (sample_face_set.set_pixel_sizes record_pixel_sizes [] 24).1.dimension_cache_ ∧
    (sample_face_set.set_pixel_sizes record_pixel_sizes [] 24).2 = [(1, 0, 24), (2, 0, 24)] :=
  ⟨(set_pixel_sizes_keeps_cache record_pixel_sizes sample_face_set [] 24).2.2.1 65 _
      (by decide),
   (set_pixel_sizes_keeps_cache record_pixel_sizes sample_face_set [] 24).2.2.2.2.1 []⟩

/-! ## face_manager: the face cache -/

theorem faces_find_append {FT_Face : Type} (faces : List (String × face_ptr FT_Face))
    (name key : String) (face : face_ptr FT_Face) :
    faces_find (faces ++ [(name, face)]) key =
      match faces_find faces key with
      | some cached => some cached
      | none => if key = name then some face else none := by
  induction faces with
  | nil =>
    by_cases hk : key = name
    · simp [faces_find, List.lookup, hk]
    · have hb : (key == name) = false := by simpa using hk
      simp [faces_find, List.lookup, hk, hb]
  | cons kv rest ih =>
    obtain ⟨k, v⟩ := kv
    simp only [faces_find] at ih ⊢
    by_cases hk : key = k
    · simp [List.lookup, hk]
    · have hb : (key == k) = false := by simpa using hk
      simp only [List.cons_append, List.lookup, hb]
      exact ih

theorem faces_find_insert_self {FT_Face : Type} (faces : List (String × face_ptr FT_Face))
    (name : String) (face : face_ptr FT_Face) (h : faces_find faces name = none) :
    faces_find (faces_insert faces name face) name = some face := by
  have h0 : faces.lookup name = none := h
  simp only [faces_insert, h0]
  rw [faces_find_append, h]
  simp

theorem faces_find_insert_other {FT_Face : Type} (faces : List (String × face_ptr FT_Face))
    (name key : String) (face : face_ptr FT_Face) (h : key ≠ name) :
    faces_find (faces_insert faces name face) key = faces_find faces key := by
  unfold faces_insert
  cases h0 : faces.lookup name with
  | some cached => rfl
  | none =>
    simp only
    rw [faces_find_append]
    cases faces_find faces key with
    | some cached => rfl
    | none => simp [h]

theorem get_face_hit {FT_Face Engine : Type}
    (create_face : Engine → String → Option (face_ptr FT_Face) × Engine)
    (m : face_manager FT_Face) (e : Engine) (name : String) (f : face_ptr FT_Face)
    (h : faces_find m.faces_ name = some f) :
    m.get_face create_face e name = (some f, m, e) := by
  simp [face_manager.get_face, h]

theorem get_face_miss_created {FT_Face Engine : Type}
    (create_face : Engine → String → Option (face_ptr FT_Face) × Engine)
    (m : face_manager FT_Face) (e : Engine) (name : String) (f : face_ptr FT_Face)
    (h : faces_find m.faces_ name = none) (hc : (create_face e name).1 = some f) :
    m.get_face create_face e name =
      (some f, { faces_ := faces_insert m.faces_ name f }, (create_face e name).2) := by
  simp [face_manager.get_face, h, hc]

theorem get_face_miss_failed {FT_Face Engine : Type}
    (create_face : Engine → String → Option (face_ptr FT_Face) × Engine)
    (m : face_manager FT_Face) (e : Engine) (name : String)
    (h : faces_find m.faces_ name = none) (hc : (create_face e name).1 = none) :
    m.get_face create_face e name = (none, m, (create_face e name).2) := by
  simp [face_manager.get_face, h, hc]

/-- What one `get_face(name)` call does to the cache entry and to the logged
invocations of another name `n`: nothing. -/
theorem get_face_other_name {FT_Face Engine : Type}
    (create_face : Engine → String → Option (face_ptr FT_Face) × Engine)
    (m : face_manager FT_Face) (e : Engine) (log : List String) (name n : String)
    (hne : name ≠ n) :
    faces_find (m.get_face (logged_create_face create_face) (e, log) name).2.1.faces_ n =
      faces_find m.faces_ n ∧
    (m.get_face (logged_create_face create_face) (e, log) name).2.2.2.count n =
      log.count n := by
  have hne2 : n ≠ name := fun h => hne h.symm
  cases hf : faces_find m.faces_ name with
  | some cached =>
    rw [get_face_hit _ m _ name cached hf]
    exact ⟨rfl, rfl⟩
  | none =>
    cases hc : (logged_create_face create_face (e, log) name).1 with
    | some face =>
      rw [get_face_miss_created _ m _ name face hf hc]
      refine ⟨faces_find_insert_other _ _ _ _ hne2, ?_⟩
      simp [logged_create_face, List.count_append, List.count_singleton, hne]
    | none =>
      rw [get_face_miss_failed _ m _ name hf hc]
      refine ⟨rfl, ?_⟩
      simp [logged_create_face, List.count_append, List.count_singleton, hne]

/-- Once `n` is cached with face `f`, every later `get_face(n)` of a call sequence
returns `f`, the engine is not asked for `n` again, and `n` stays cached. -/
theorem get_face_calls_cached {FT_Face Engine : Type}
    (create_face : Engine → String → Option (face_ptr FT_Face) × Engine)
    (n : String) (f : face_ptr FT_Face) (names : List String)
    (m : face_manager FT_Face) (e : Engine) (log : List String)
    (h : faces_find m.faces_ n = some f) :
    (∀ (i : Nat) (hi : i < names.length), names[i] = n →
      (face_manager.get_face_calls (logged_create_face create_face) names m (e, log)).1[i]? =
        some (some f)) ∧
    (face_manager.get_face_calls (logged_create_face create_face) names m
      (e, log)).2.2.2.count n = log.count n ∧
    faces_find (face_manager.get_face_calls (logged_create_face create_face) names m
      (e, log)).2.1.faces_ n = some f := by
  induction names generalizing m e log with
  | nil => exact ⟨fun i hi => absurd hi (by simp), rfl, h⟩
  | cons name rest ih =>
    simp only [face_manager.get_face_calls]
    by_cases hn : name = n
    · subst hn
      rw [get_face_hit _ m _ name f h]
      obtain ⟨h1, h2, h3⟩ := ih m e log h
      refine ⟨?_, h2, h3⟩
      intro i hi hi2
      cases i with
      | zero => simp
      | succ k =>
        have hk : k < rest.length := by simpa using hi
        simpa using h1 k hk (by simpa using hi2)
    · obtain ⟨ho1, ho2⟩ := get_face_other_name create_face m e log name n hn
      obtain ⟨h1, h2, h3⟩ :=
        ih (m.get_face (logged_create_face create_face) (e, log) name).2.1
          (m.get_face (logged_create_face create_face) (e, log) name).2.2.1
          (m.get_face (logged_create_face create_face) (e, log) name).2.2.2
          (by rw [ho1]; exact h)
      refine ⟨?_, by rw [← ho2]; exact h2, h3⟩
      intro i hi hi2
      cases i with
      | zero => exact absurd (by simpa using hi2) hn
      | succ k =>
        have hk : k < rest.length := by simpa using hi
        simpa using h1 k hk (by simpa using hi2)

/-- While `n` is not cached, a call sequence that requests `n` loads it once: all its
`get_face(n)` calls return one face, which ends up cached, and the log gains one `n`. -/
theorem get_face_calls_uncached {FT_Face Engine : Type}
    (create_face : Engine → String → Option (face_ptr FT_Face) × Engine)
    (n : String) (hsucc : ∀ e : Engine, (create_face e n).1 ≠ none) (names : List String)
    (m : face_manager FT_Face) (e : Engine) (log : List String)
    (h : faces_find m.faces_ n = none) (hreq : n ∈ names) :
    ∃ f : face_ptr FT_Face,
      (∀ (i : Nat) (hi : i < names.length), names[i] = n →
        (face_manager.get_face_calls (logged_create_face create_face) names m
          (e, log)).1[i]? = some (some f)) ∧
      (face_manager.get_face_calls (logged_create_face create_face) names m
        (e, log)).2.2.2.count n = log.count n + 1 ∧
      faces_find (face_manager.get_face_calls (logged_create_face create_face) names m
        (e, log)).2.1.faces_ n = some f := by
  induction names generalizing m e log with
  | nil => simp at hreq
  | cons name rest ih =>
    simp only [face_manager.get_face_calls]
    by_cases hn : name = n
    · subst hn
      cases hc : (create_face e name).1 with
      | none => exact absurd hc (hsucc e)
      | some f =>
        have hc2 : (logged_create_face create_face (e, log) name).1 = some f := hc
        rw [get_face_miss_created _ m _ name f h hc2]
        obtain ⟨h1, h2, h3⟩ :=
          get_face_calls_cached create_face name f rest
            { faces_ := faces_insert m.faces_ name f } (create_face e name).2
            (log ++ [name]) (faces_find_insert_self _ _ _ h)
        refine ⟨f, ?_, ?_, h3⟩
        · intro i hi hi2
          cases i with
          | zero => simp
          | succ k =>
            have hk : k < rest.length := by simpa using hi
            simpa using h1 k hk (by simpa using hi2)
        · have hlog : (logged_create_face create_face (e, log) name).2 =
              ((create_face e name).2, log ++ [name]) := rfl
          rw [hlog, h2]
          simp [List.count_append]
    · obtain ⟨ho1, ho2⟩ := get_face_other_name create_face m e log name n hn
      have hrest : n ∈ rest := by
        rcases List.mem_cons.mp hreq with heq | hmem
        · exact absurd heq.symm hn
        · exact hmem
      obtain ⟨f, h1, h2, h3⟩ :=
        ih (m.get_face (logged_create_face create_face) (e, log) name).2.1
          (m.get_face (logged_create_face create_face) (e, log) name).2.2.1
          (m.get_face (logged_create_face create_face) (e, log) name).2.2.2
          (by rw [ho1]; exact h) hrest
      refine ⟨f, ?_, by rw [← ho2]; exact h2, h3⟩
      intro i hi hi2
      cases i with
      | zero => exact absurd (by simpa using hi2) hn
      | succ k =>
        have hk : k < rest.length := by simpa using hi
        simpa using h1 k hk (by simpa using hi2)

/-- C4. `get_face` caches successful loads: on a new manager, for a name `n` the engine
can always create and any sequence of `get_face` calls that requests `n`, every
`get_face(n)` of the sequence returns one and the same face, that face is cached under
`n` at the end, and `create_face` was invoked for `n` exactly once. -/
theorem get_face_caches_loads {FT_Face Engine : Type}
    (create_face : Engine → String → Option (face_ptr FT_Face) × Engine)
    (engine_ : Engine) (names : List String) (n : String)
    (hsucc : ∀ e : Engine, (create_face e n).1 ≠ none) (hreq : n ∈ names) :
    ∃ f : face_ptr FT_Face,
      (∀ (i : Nat) (hi : i < names.length), names[i] = n →
        (face_manager.get_face_calls (logged_create_face create_face) names
          face_manager.new (engine_, [])).1[i]? = some (some f)) ∧
      (face_manager.get_face_calls (logged_create_face create_face) names
        face_manager.new (engine_, [])).2.2.2.count n = 1 ∧
      faces_find (face_manager.get_face_calls (logged_create_face create_face) names
        face_manager.new (engine_, [])).2.1.faces_ n = some f := by
  obtain ⟨f, h1, h2, h3⟩ :=
    get_face_calls_uncached create_face n hsucc names face_manager.new engine_ [] rfl hreq
  exact ⟨f, h1, by simpa using h2, h3⟩

/-- Witness of C4 on the sample engine: five requests, three of them for the same
name, with another name and an unknown name in between. -/
theorem get_face_caches_loads_witness :
    (∀ e : Nat, (sample_engine e "DejaVu Sans Book").1 ≠ none) ∧
    "DejaVu Sans Book" ∈
      ["DejaVu Sans Book", "Unifont Medium", "DejaVu Sans Book", "Missing",
        "DejaVu Sans Book"] ∧
    ∃ f : face_ptr Nat,
      (∀ (i : Nat) (hi : i < ["DejaVu Sans Book", "Unifont Medium", "DejaVu Sans Book",
          "Missing", "DejaVu Sans Book"].length),
        ["DejaVu Sans Book", "Unifont Medium", "DejaVu Sans Book", "Missing",
          "DejaVu Sans Book"][i] = "DejaVu Sans Book" →
        (face_manager.get_face_calls (logged_create_face sample_engine)
          ["DejaVu Sans Book", "Unifont Medium", "DejaVu Sans Book", "Missing",
            "DejaVu Sans Book"] face_manager.new (1, [])).1[i]? = some (some f)) ∧
      (face_manager.get_face_calls (logged_create_face sample_engine)
        ["DejaVu Sans Book", "Unifont Medium", "DejaVu Sans Book", "Missing",
          "DejaVu Sans Book"] face_manager.new (1, [])).2.2.2.count "DejaVu Sans Book" = 1 ∧
      faces_find (face_manager.get_face_calls (logged_create_face sample_engine)
        ["DejaVu Sans Book", "Unifont Medium", "DejaVu Sans Book", "Missing",
          "DejaVu Sans Book"] face_manager.new (1, [])).2.1.faces_ "DejaVu Sans Book" =
        some f :=
  ⟨fun e => by simp [sample_engine], by simp,
   get_face_caches_loads sample_engine 1 _ "DejaVu Sans Book"
     (fun e => by simp [sample_engine]) (by simp)⟩

/-- C5. `get_face` does not cache failures: when `name` is not cached and the engine's
`create_face` gives a null pointer, `get_face(name)` returns the null pointer and the
manager is exactly as before (the engine was asked once); a later `get_face(name)` on
that manager, in any engine state where `create_face` gives a face, asks the engine
again, returns that face and caches it under `name`. -/
theorem get_face_failure_not_cached {FT_Face Engine : Type}
    (create_face : Engine → String → Option (face_ptr FT_Face) × Engine)
    (m : face_manager FT_Face) (e : Engine) (log : List String) (name : String)
    (hmiss : faces_find m.faces_ name = none) (hfail : (create_face e name).1 = none) :
    m.get_face (logged_create_face create_face) (e, log) name =
      (none, m, ((create_face e name).2, log ++ [name])) ∧
    ∀ (e2 : Engine) (log2 : List String) (f : face_ptr FT_Face),
      (create_face e2 name).1 = some f →
      (m.get_face (logged_create_face create_face) (e, log) name).2.1.get_face
          (logged_create_face create_face) (e2, log2) name =
        (some f, { faces_ := faces_insert m.faces_ name f },
          ((create_face e2 name).2, log2 ++ [name])) ∧
      faces_find ((m.get_face (logged_create_face create_face) (e, log) name).2.1.get_face
          (logged_create_face create_face) (e2, log2) name).2.1.faces_ name = some f := by
  have h1 : m.get_face (logged_create_face create_face) (e, log) name =
      (none, m, ((create_face e name).2, log ++ [name])) :=
    get_face_miss_failed (logged_create_face create_face) m (e, log) name hmiss hfail
  refine ⟨h1, fun e2 log2 f hc => ?_⟩
  have h2 : m.get_face (logged_create_face create_face) (e2, log2) name =
      (some f, { faces_ := faces_insert m.faces_ name f },
        ((create_face e2 name).2, log2 ++ [name])) :=
    get_face_miss_created (logged_create_face create_face) m (e2, log2) name f hmiss hc
  rw [h1]
  exact ⟨h2, by rw [h2]; exact faces_find_insert_self _ _ _ hmiss⟩

/-- Witness of C5 on the registry engine: the name is unknown at the first call and
registered before the second. -/
theorem get_face_failure_not_cached_witness :
    faces_find (face_manager.new : face_manager Nat).faces_ "Unifont Medium" = none ∧
    (registry_engine ([], 7) "Unifont Medium").1 = none ∧
    (face_manager.new : face_manager Nat).get_face (logged_create_face registry_engine)
        (([], 7), []) "Unifont Medium" =
      (none, face_manager.new, (([], 7), ["Unifont Medium"])) ∧
    ((face_manager.new : face_manager Nat).get_face (logged_create_face registry_engine)
        (([], 7), []) "Unifont Medium").2.1.get_face (logged_create_face registry_engine)
        ((["Unifont Medium"], 7), ["Unifont Medium"]) "Unifont Medium" =
      (some { face_ := 7 }, { faces_ := [("Unifont Medium", { face_ := 7 })] },
        ((["Unifont Medium"], 8), ["Unifont Medium", "Unifont Medium"])) :=
  ⟨rfl, by decide,
   (get_face_failure_not_cached registry_engine face_manager.new ([], 7) []
      "Unifont Medium" rfl (by decide)).1,
   ((get_face_failure_not_cached registry_engine face_manager.new ([], 7) []
      "Unifont Medium" rfl (by decide)).2 (["Unifont Medium"], 7) ["Unifont Medium"]
      { face_ := 7 } (by decide)).1⟩

/-! ## face_manager: building a face set from a font set -/

theorem get_face_set_loop_eq {FT_Face R Engine : Type}
    (create_face : Engine → String → Option (face_ptr FT_Face) × Engine)
    (names : List String) (acc : font_face_set FT_Face R) (m : face_manager FT_Face)
    (e : Engine) :
    (face_manager.get_face_set_loop create_face names acc m e).1.faces_ =
      acc.faces_ ++ (face_manager.get_face_calls create_face names m e).1.reduceOption ∧
    (acc.dimension_cache_ = [] →
      (face_manager.get_face_set_loop create_face names acc m e).1.dimension_cache_ = []) ∧
    (face_manager.get_face_set_loop create_face names acc m e).2 =
      (face_manager.get_face_calls create_face names m e).2 := by
  induction names generalizing acc m e with
  | nil => simp [face_manager.get_face_set_loop, face_manager.get_face_calls]
  | cons name rest ih =>
    simp only [face_manager.get_face_set_loop, face_manager.get_face_calls]
    cases hr : (m.get_face create_face e name).1 with
    | none =>
      obtain ⟨h1, h2, h3⟩ := ih acc (m.get_face create_face e name).2.1
        (m.get_face create_face e name).2.2
      exact ⟨by simpa [List.reduceOption_cons_of_none] using h1, h2, h3⟩
    | some face =>
      obtain ⟨h1, h2, h3⟩ := ih (acc.add face) (m.get_face create_face e name).2.1
        (m.get_face create_face e name).2.2
      refine ⟨?_, fun _ => h2 rfl, h3⟩
      simp only [List.reduceOption_cons_of_some]
      rw [h1]
      simp [font_face_set.add]

/-- C6. `get_face_set(font_set)` builds the chain in configuration order: the faces of
the returned set are the non-null results of `get_face` on the names from left to right,
in that order and with repetitions; the chain length is the number of names that
resolve, 0 when none does; the dimension cache of the returned set is empty; manager
and engine end in the state the `get_face` calls leave them in. -/
theorem get_face_set_in_order {FT_Face R Engine : Type}
    (create_face : Engine → String → Option (face_ptr FT_Face) × Engine)
    (m : face_manager FT_Face) (e : Engine) (fset : font_set) :
    (@face_manager.get_face_set FT_Face R Engine create_face m e fset).1.faces_ =
      (face_manager.get_face_calls create_face fset.face_names_ m e).1.reduceOption ∧
    (@face_manager.get_face_set FT_Face R Engine create_face m e fset).1.faces_.length =
      ((face_manager.get_face_calls create_face fset.face_names_ m e).1.filter
        Option.isSome).length ∧
    ((∀ r ∈ (face_manager.get_face_calls create_face fset.face_names_ m e).1, r = none) →
      (@face_manager.get_face_set FT_Face R Engine create_face m e fset).1.faces_.length = 0) ∧
    (@face_manager.get_face_set FT_Face R Engine create_face m e fset).1.dimension_cache_ = [] ∧
    (@face_manager.get_face_set FT_Face R Engine create_face m e fset).2 =
      (face_manager.get_face_calls create_face fset.face_names_ m e).2 := by
  obtain ⟨h1, h2, h3⟩ :=
    get_face_set_loop_eq create_face fset.face_names_ (font_face_set.new : font_face_set FT_Face R)
      m e
  have hf : (@face_manager.get_face_set FT_Face R Engine create_face m e fset).1.faces_ =
      (face_manager.get_face_calls create_face fset.face_names_ m e).1.reduceOption := by
    simpa [face_manager.get_face_set, font_face_set.new] using h1
  refine ⟨hf, ?_, ?_, h2 rfl, h3⟩
  · rw [hf, List.reduceOption_length_eq]
  · intro hall
    rw [hf, List.reduceOption_length_eq, List.length_eq_zero, List.filter_eq_nil_iff]
    intro r hr
    simp [hall r hr]

/-- Witness of C6 on the sample engine: an unknown name is skipped, a repeated name
gives the cached face again, and the order is that of the names. -/
theorem get_face_set_in_order_witness :
    (face_manager.get_face_calls sample_engine
      ["Missing", "Unifont Medium", "DejaVu Sans Book", "Unifont Medium"]
      face_manager.new 1).1 = [none, some { face_ := 1 }, some { face_ := 2 },
        some { face_ := 1 }] ∧
    (@face_manager.get_face_set Nat Int Nat sample_engine face_manager.new 1
      { face_names_ := ["Missing", "Unifont Medium", "DejaVu Sans Book",
          "Unifont Medium"] }).1.faces_ =
      ([none, some { face_ := 1 }, some { face_ := 2 },
        some { face_ := 1 }] : List (Option (face_ptr Nat))).reduceOption ∧
    (@face_manager.get_face_set Nat Int Nat sample_engine face_manager.new 1
      { face_names_ := ["Missing", "Unifont Medium", "DejaVu Sans Book",
          "Unifont Medium"] }).1.dimension_cache_ = [] :=
  ⟨by decide,
   (get_face_set_in_order sample_engine face_manager.new 1
      { face_names_ := ["Missing", "Unifont Medium", "DejaVu Sans Book",
          "Unifont Medium"] }).1,
   (get_face_set_in_order sample_engine face_manager.new 1
      { face_names_ := ["Missing", "Unifont Medium", "DejaVu Sans Book",
          "Unifont Medium"] }).2.2.2.1⟩

/-! ## text_renderer: the covered pixels of a bitmap -/

theorem mem_column_cells (bitmap : FT_Bitmap) (p : Int) (n : Nat) (q0 : Int)
    (cell : Int × Int) :
    cell ∈ column_cells bitmap p n q0 ↔
      cell.1 = p ∧ q0 ≤ cell.2 ∧ cell.2 < q0 + n ∧
        bitmap.buffer (cell.2 * bitmap.width + p) ≠ 0 := by
  induction n generalizing q0 with
  | zero =>
    simp only [column_cells, List.not_mem_nil, false_iff]
    intro h
    omega
  | succ n ih =>
    simp only [column_cells, List.mem_append, ih]
    constructor
    · rintro (h | ⟨h1, h2, h3, h4⟩)
      · split at h
        · rename_i hne
          simp only [List.mem_singleton] at h
          subst h
          exact ⟨rfl, le_refl _, by simp only [Nat.cast_add, Nat.cast_one]; omega, hne⟩
        · simp at h
      · exact ⟨h1, by omega, by simp only [Nat.cast_add, Nat.cast_one]; omega, h4⟩
    · rintro ⟨h1, h2, h3, h4⟩
      simp only [Nat.cast_add, Nat.cast_one] at h3
      by_cases hq : cell.2 = q0
      · left
        have hne : bitmap.buffer (q0 * bitmap.width + p) ≠ 0 := by rw [← hq]; exact h4
        rw [if_pos hne]
        simp only [List.mem_singleton]
        exact Prod.ext h1 hq
      · right
        exact ⟨h1, by omega, by omega, h4⟩

theorem mem_bitmap_cells (bitmap : FT_Bitmap) (n : Nat) (p0 : Int) (cell : Int × Int) :
    cell ∈ bitmap_cells bitmap n p0 ↔
      p0 ≤ cell.1 ∧ cell.1 < p0 + n ∧ 0 ≤ cell.2 ∧ cell.2 < bitmap.rows ∧
        bitmap.buffer (cell.2 * bitmap.width + cell.1) ≠ 0 := by
  induction n generalizing p0 with
  | zero =>
    simp only [bitmap_cells, List.not_mem_nil, false_iff]
    intro h
    omega
  | succ n ih =>
    simp only [bitmap_cells, List.mem_append, ih, mem_column_cells, Nat.cast_add,
      Nat.cast_one]
    constructor
    · rintro (⟨h1, h2, h3, h4⟩ | ⟨h1, h2, h3, h4, h5⟩)
      · exact ⟨by omega, by omega, h2, by omega, by rw [h1]; exact h4⟩
      · exact ⟨by omega, by omega, h3, h4, h5⟩
    · rintro ⟨h1, h2, h3, h4, h5⟩
      by_cases hp : cell.1 = p0
      · left
        exact ⟨hp, h3, by omega, by rw [← hp]; exact h5⟩
      · right
        exact ⟨by omega, by omega, h3, h4, h5⟩

theorem mem_covered_cells (bitmap : FT_Bitmap) (cell : Int × Int) :
    cell ∈ covered_cells bitmap ↔ covered bitmap cell.1 cell.2 := by
  simp only [covered_cells, mem_bitmap_cells, covered]
  constructor
  · rintro ⟨h1, h2, h3, h4, h5⟩
    exact ⟨by omega, by omega, h3, h4, h5⟩
  · rintro ⟨h1, h2, h3, h4, h5⟩
    exact ⟨by omega, by omega, h3, h4, h5⟩

theorem wrap_int_of_is_int (z : Int) (h : is_int z) : wrap_int z = z := by
  unfold wrap_int
  omega

theorem offset_is_int (w h p q : Int) (hp0 : 0 ≤ p) (hp : p < w) (hq0 : 0 ≤ q) (hq : q < h)
    (hwh : w * h ≤ 2147483647) : is_int (q * w) ∧ is_int (q * w + p) := by
  have h1 : 0 ≤ q * w := mul_nonneg hq0 (by omega)
  have h2 : (q + 1) * w ≤ h * w := mul_le_mul_of_nonneg_right (by omega) (by omega)
  have h3 : (q + 1) * w = q * w + w := by ring
  have h4 : h * w = w * h := mul_comm _ _
  constructor <;> constructor <;> omega

/-- One step of the inner loop within range: the increments and the buffer offset are
the exact integers. -/
theorem inner_step_exact (bitmap : FT_Bitmap) (y p q : Int)
    (hy : is_int y) (hyh : is_int (y + bitmap.rows)) (hh : is_int bitmap.rows)
    (hp0 : 0 ≤ p) (hp : p < bitmap.width) (hq0 : 0 ≤ q) (hq : q < bitmap.rows)
    (hwh : 0 < bitmap.width → 0 < bitmap.rows → bitmap.width * bitmap.rows ≤ 2147483647) :
    wrap_int (y + q + 1) = y + (q + 1) ∧ wrap_int (q + 1) = q + 1 ∧
      wrap_int (wrap_int (q * bitmap.width) + p) = q * bitmap.width + p := by
  obtain ⟨ho1, ho2⟩ := offset_is_int bitmap.width bitmap.rows p q hp0 hp hq0 hq
    (hwh (by omega) (by omega))
  refine ⟨?_, wrap_int_of_is_int _ (by constructor <;> omega), ?_⟩
  · rw [wrap_int_of_is_int _ (by constructor <;> omega)]
    omega
  · rw [wrap_int_of_is_int _ ho1, wrap_int_of_is_int _ ho2]

/-- One step of the outer loop within range: the increments are the exact integers. -/
theorem outer_step_exact (bitmap : FT_Bitmap) (x p : Int)
    (hx : is_int x) (hxw : is_int (x + bitmap.width)) (hw : is_int bitmap.width)
    (hp0 : 0 ≤ p) (hp : p < bitmap.width) :
    wrap_int (x + p + 1) = x + (p + 1) ∧ wrap_int (p + 1) = p + 1 := by
  refine ⟨?_, wrap_int_of_is_int _ (by constructor <;> omega)⟩
  rw [wrap_int_of_is_int _ (by constructor <;> omega)]
  omega

/-! ## text_renderer: render_bitmap -/

theorem render_bitmap_id_inner_eq {T : Type} (setPixel : T → Int → Int → Int → T)
    (bitmap : FT_Bitmap) (feature_id : Int) (x y p : Int) (n : Nat) (q : Int)
    (pixmap_ : T)
    (hy : is_int y) (hyh : is_int (y + bitmap.rows)) (hh : is_int bitmap.rows)
    (hp0 : 0 ≤ p) (hp : p < bitmap.width) (hq0 : 0 ≤ q)
    (hwh : 0 < bitmap.width → 0 < bitmap.rows → bitmap.width * bitmap.rows ≤ 2147483647)
    (hn : n = (y + bitmap.rows - (y + q)).toNat) :
    text_renderer.render_bitmap_id_inner setPixel bitmap feature_id (y + bitmap.rows)
        (x + p) p n (y + q) q pixmap_ =
      (column_cells bitmap p n q).foldl
        (fun t cell => setPixel t (x + cell.1) (y + cell.2) feature_id) pixmap_ := by
  induction n generalizing q pixmap_ with
  | zero => rfl
  | succ n ih =>
    have hlt : y + q < y + bitmap.rows := by omega
    have hn2 : n = (y + bitmap.rows - (y + (q + 1))).toNat := by omega
    obtain ⟨e1, e2, e3⟩ :=
      inner_step_exact bitmap y p q hy hyh hh hp0 hp hq0 (by omega) hwh
    simp only [text_renderer.render_bitmap_id_inner, hlt, if_true, column_cells,
      List.foldl_append, e1, e2, e3]
    rw [ih (q + 1) _ (by omega) hn2]
    congr 1
    split <;> rfl

theorem render_bitmap_id_outer_eq {T : Type} (setPixel : T → Int → Int → Int → T)
    (bitmap : FT_Bitmap) (feature_id : Int) (x y : Int) (n : Nat) (p : Int)
    (pixmap_ : T) (hrange : in_int_range bitmap x y) (hp0 : 0 ≤ p)
    (hn : n = (x + bitmap.width - (x + p)).toNat) :
    text_renderer.render_bitmap_id_outer setPixel bitmap feature_id (x + bitmap.width) y
        (y + bitmap.rows) n (x + p) p pixmap_ =
      (bitmap_cells bitmap n p).foldl
        (fun t cell => setPixel t (x + cell.1) (y + cell.2) feature_id) pixmap_ := by
  obtain ⟨hx, hy, hw, hh, hxw, hyh, hwh⟩ := hrange
  induction n generalizing p pixmap_ with
  | zero => rfl
  | succ n ih =>
    have hlt : x + p < x + bitmap.width := by omega
    have hn2 : n = (x + bitmap.width - (x + (p + 1))).toNat := by omega
    have hrows : (y + bitmap.rows - y).toNat = bitmap.rows.toNat := by
      congr 1
      omega
    obtain ⟨e1, e2⟩ := outer_step_exact bitmap x p hx hxw hw hp0 (by omega)
    have hinner := render_bitmap_id_inner_eq setPixel bitmap feature_id x y p
      bitmap.rows.toNat 0 pixmap_ hy hyh hh hp0 (by omega) (le_refl 0) hwh (by omega)
    simp only [add_zero] at hinner
    simp only [text_renderer.render_bitmap_id_outer, hlt, if_true, bitmap_cells,
      List.foldl_append, hrows, e1, e2]
    rw [ih (p + 1) _ (by omega) hn2, hinner]

/-- Within the `int` range the sink after `render_bitmap_id` is the sink before with one
`setPixel` call per covered pixel, column after column. -/
theorem render_bitmap_id_eq_foldl {T : Type} (setPixel : T → Int → Int → Int → T)
    (bitmap : FT_Bitmap) (feature_id : Int) (x y : Int) (pixmap_ : T)
    (hrange : in_int_range bitmap x y) :
    text_renderer.render_bitmap_id setPixel bitmap feature_id x y pixmap_ =
      (covered_cells bitmap).foldl
        (fun t cell => setPixel t (x + cell.1) (y + cell.2) feature_id) pixmap_ := by
  have hxm : wrap_int (x + bitmap.width) = x + bitmap.width :=
    wrap_int_of_is_int _ hrange.2.2.2.2.1
  have hym : wrap_int (y + bitmap.rows) = y + bitmap.rows :=
    wrap_int_of_is_int _ hrange.2.2.2.2.2.1
  have hw : (x + bitmap.width - x).toNat = bitmap.width.toNat := by
    congr 1
    omega
  have h := render_bitmap_id_outer_eq setPixel bitmap feature_id x y bitmap.width.toNat 0
    pixmap_ hrange (le_refl 0) (by omega)
  simp only [add_zero] at h
  simp only [text_renderer.render_bitmap_id, covered_cells, hxm, hym, hw]
  exact h

theorem foldl_setPixel_untouched (cells : List (Int × Int)) (feature_id x y a b : Int)
    (pixmap_ : id_buffer)
    (h : ∀ cell ∈ cells, ¬ (a = x + cell.1 ∧ b = y + cell.2)) :
    (cells.foldl (fun t cell => id_buffer.setPixel t (x + cell.1) (y + cell.2) feature_id)
      pixmap_) a b = pixmap_ a b := by
  induction cells generalizing pixmap_ with
  | nil => rfl
  | cons c rest ih =>
    rw [List.foldl_cons, ih _ (fun cell hmem => h cell (List.mem_cons_of_mem _ hmem))]
    have hc := h c (List.mem_cons_self _ _)
    simp [id_buffer.setPixel, hc]

theorem foldl_setPixel_written (cells : List (Int × Int)) (feature_id x y a b : Int)
    (pixmap_ : id_buffer)
    (h : ∃ cell ∈ cells, a = x + cell.1 ∧ b = y + cell.2) :
    (cells.foldl (fun t cell => id_buffer.setPixel t (x + cell.1) (y + cell.2) feature_id)
      pixmap_) a b = feature_id := by
  induction cells generalizing pixmap_ with
  | nil => obtain ⟨cell, hmem, _⟩ := h; simp at hmem
  | cons c rest ih =>
    rw [List.foldl_cons]
    by_cases hrest : ∃ cell ∈ rest, a = x + cell.1 ∧ b = y + cell.2
    · exact ih _ hrest
    · have hnone : ∀ cell ∈ rest, ¬ (a = x + cell.1 ∧ b = y + cell.2) :=
        fun cell hmem hab => hrest ⟨cell, hmem, hab⟩
      rw [foldl_setPixel_untouched rest feature_id x y a b _ hnone]
      obtain ⟨cell, hmem, hab⟩ := h
      rcases List.mem_cons.mp hmem with rfl | hmem
      · simp [id_buffer.setPixel, hab]
      · exact absurd ⟨cell, hmem, hab⟩ hrest

/-- C10, as stated, fails where the `int` sum `x + width` overflows: with the one-pixel
bitmap of coverage 255 drawn at `x = 2147483647` into a buffer of zeros, the pixel of the
covered `(0, 0)` does not hold the feature id 42 afterwards; it still holds 0. -/
theorem render_bitmap_id_overflow_counterexample :
    covered dot_bitmap 0 0 ∧
    text_renderer.render_bitmap_id id_buffer.setPixel dot_bitmap 42 2147483647 0
      (fun _ _ => 0) (2147483647 + 0) (0 + 0) ≠ 42 ∧
    text_renderer.render_bitmap_id id_buffer.setPixel dot_bitmap 42 2147483647 0
      (fun _ _ => 0) (2147483647 + 0) (0 + 0) = 0 :=
  ⟨by simp [covered, dot_bitmap], by decide, by decide⟩

/-- C10 (amended). Id rendering writes the feature id exactly on covered pixels, within
the `int` range: when the origin, the extents, `x + width`, `y + rows` and the offsets of
the rectangle are representable as `int`, then on any sink the effect of
`render_bitmap_id` is one `setPixel(x+p, y+q, feature_id)` per covered pixel `(p, q)`; on
an id buffer, afterwards every pixel `(x+p, y+q)` of a covered `(p, q)` holds the feature
id, and every pixel `(a, b)` that is not one of those (zero coverage there, or outside
the bitmap rectangle) holds the value it had before. -/
theorem render_bitmap_id_writes_covered (bitmap : FT_Bitmap) (feature_id x y : Int)
    (pixmap_ : id_buffer) (hrange : in_int_range bitmap x y) :
    (∀ (T : Type) (setPixel : T → Int → Int → Int → T) (sink : T),
      text_renderer.render_bitmap_id setPixel bitmap feature_id x y sink =
        (covered_cells bitmap).foldl
          (fun t cell => setPixel t (x + cell.1) (y + cell.2) feature_id) sink) ∧
    (∀ p q : Int, covered bitmap p q →
      text_renderer.render_bitmap_id id_buffer.setPixel bitmap feature_id x y pixmap_
        (x + p) (y + q) = feature_id) ∧
    (∀ a b : Int, ¬ covered bitmap (a - x) (b - y) →
      text_renderer.render_bitmap_id id_buffer.setPixel bitmap feature_id x y pixmap_ a b =
        pixmap_ a b) := by
  refine ⟨fun T setPixel sink =>
    render_bitmap_id_eq_foldl setPixel bitmap feature_id x y sink hrange, ?_, ?_⟩
  · intro p q hcov
    rw [render_bitmap_id_eq_foldl _ _ _ _ _ _ hrange]
    exact foldl_setPixel_written _ feature_id x y _ _ pixmap_
      ⟨(p, q), (mem_covered_cells bitmap (p, q)).mpr hcov, rfl, rfl⟩
  · intro a b hnot
    rw [render_bitmap_id_eq_foldl _ _ _ _ _ _ hrange]
    refine foldl_setPixel_untouched _ feature_id x y a b pixmap_ ?_
    intro cell hmem hab
    apply hnot
    have hcov := (mem_covered_cells bitmap cell).mp hmem
    have h1 : a - x = cell.1 := by omega
    have h2 : b - y = cell.2 := by omega
    rw [h1, h2]
    exact hcov

/-- Witness of C10 (amended) on the sample bitmap drawn at (10, 20) into a buffer of
zeros with feature id 42: pixel (11, 20) holds 42, its neighbour (10, 20) still holds 0. -/
theorem render_bitmap_id_writes_covered_witness :
    in_int_range sample_bitmap 10 20 ∧
    covered sample_bitmap 1 0 ∧ ¬ covered sample_bitmap (10 - 10) (20 - 20) ∧
    text_renderer.render_bitmap_id id_buffer.setPixel sample_bitmap 42 10 20 (fun _ _ => 0)
      (10 + 1) (20 + 0) = 42 ∧
    text_renderer.render_bitmap_id id_buffer.setPixel sample_bitmap 42 10 20 (fun _ _ => 0)
      10 20 = (fun _ _ => (0 : Int)) 10 20 :=
  ⟨by decide, by simp [covered, sample_bitmap], by simp [covered, sample_bitmap],
   (render_bitmap_id_writes_covered sample_bitmap 42 10 20 (fun _ _ => 0) (by decide)).2.1 1 0
     (by simp [covered, sample_bitmap]),
   (render_bitmap_id_writes_covered sample_bitmap 42 10 20 (fun _ _ => 0) (by decide)).2.2
     10 20 (by simp [covered, sample_bitmap])⟩

end mapnik
